import Mathlib

/-!
Verification of the search/index core of Mio_v3 (`src/core/finder.py`):
name normalization, the search memory, the query parser, the ranking
scorer, the persistent index upsert, and the two-phase search generator.

Python text is modelled as `List Char` / `String` over Unicode code
points; Python floats carrying scores, sizes and timestamps are modelled
as `ℚ` (all the arithmetic performed on them here is exact in binary
floating point at these magnitudes, and no claim depends on rounding);
code that can raise is modelled in `Except String`.
-/

attribute [local semireducible] Rat.add Rat.mul Rat.inv Rat.sub Rat.ofScientific

namespace Mio

instance {ε α : Type} [DecidableEq ε] [DecidableEq α] : DecidableEq (Except ε α) := fun x y =>
  match x, y with
  | Except.ok a, Except.ok b =>
    if h : a = b then Decidable.isTrue (by rw [h]) else Decidable.isFalse (by simp [h])
  | Except.error a, Except.error b =>
    if h : a = b then Decidable.isTrue (by rw [h]) else Decidable.isFalse (by simp [h])
  | Except.ok _, Except.error _ => Decidable.isFalse (by simp)
  | Except.error _, Except.ok _ => Decidable.isFalse (by simp)

/-! ### Models of the Python standard-library text primitives used by finder.py -/

/-- Models Python `str.lower`, character-wise.  Exact on code points below
128 and on every character that has no lowercase mapping (such as U+2116,
used below); non-ASCII lowercase mappings and the rare multi-character
mappings are outside the modelled domain and are kept unchanged. -/
def pyLowerChar (c : Char) : Char :=
  if 65 ≤ c.toNat ∧ c.toNat ≤ 90 then Char.ofNat (c.toNat + 32) else c

/-- `str.lower` on a whole string. -/
def pyLower (l : List Char) : List Char := l.map pyLowerChar

/-- `str.lower` packaged on `String`. -/
def pyLowerStr (s : String) : String := String.mk (pyLower s.toList)

/-- Models `unicodedata.normalize('NFKD', ·)`, character-wise.  Exact on
code points below 128 (ASCII is NFKD-stable) and on U+2116 NUMERO SIGN,
whose compatibility decomposition is "No"; other decomposable characters
are outside the modelled domain and are kept unchanged. -/
def nfkdChar (c : Char) : List Char :=
  if c = '№' then ['N', 'o'] else [c]

/-- Models `.encode('ASCII', 'ignore').decode('ASCII')`: every code point
at or above 128 is dropped. -/
def asciiIgnore (l : List Char) : List Char := l.filter (fun c => c.toNat < 128)

/-- The character class `[\s_\-\.]` of the final `re.sub` in
`normalize_name`, restricted to ASCII input (which is all that reaches it,
after `asciiIgnore`): Python's `\s` matches exactly the ASCII code points
9-13, 28-31 and 32. -/
def isStripped (c : Char) : Bool :=
  (9 ≤ c.toNat && c.toNat ≤ 13) || (28 ≤ c.toNat && c.toNat ≤ 32) ||
    c = '_' || c = '-' || c = '.'

/-- The character pipeline of `normalize_name`:
`name.lower()`, then NFKD, then ASCII-ignore, then `re.sub(r'[\s_\-\.]', '', ·)`. -/
def normChars (l : List Char) : List Char :=
  (asciiIgnore ((pyLower l).flatMap nfkdChar)).filter (fun c => !isStripped c)

/-- finder.py `normalize_name` (lines 227-231). -/
def normalize_name (name : String) : String :=
  if name = "" then "" else String.mk (normChars name.toList)

/-! ### Search memory (finder.py lines 194-221)

The persisted `history` dict (`normalized query → chosen path`) is
modelled as a lookup function, which is exactly what a string-keyed dict
denotes. -/

abbrev History := String → Option String

/-- `SearchMemory.learn` (line 212): `history[normalize_name(query)] = path`. -/
def SearchMemory.learn (h : History) (query path : String) : History :=
  fun k => if k = normalize_name query then some path else h k

/-- `SearchMemory.get_boost` (lines 215-219): 0.4 when the normalized
query's remembered path equals the given path, else 0. -/
def SearchMemory.get_boost (h : History) (query path : String) : ℚ :=
  if h (normalize_name query) = some path then 0.4 else 0

/-! ### Substring containment (Python's `in` on strings) -/

/-- Models Python `needle in hay` on strings. -/
def listContainsSub (needle hay : List Char) : Bool :=
  (List.range (hay.length + 1)).any (fun i => needle.isPrefixOf (hay.drop i))

/-- `strContains hay needle` models Python `needle in hay`. -/
def strContains (hay needle : String) : Bool :=
  listContainsSub needle.toList hay.toList

/-! ### Model of `difflib.SequenceMatcher(None, a, b).ratio()`

finder.py computes its fuzzy similarity with difflib.  The model below
implements difflib's algorithm for inputs on which autojunk is inert
(`len(b) < 200`, which covers every normalized name compared here): the
ratio is `2*M/T` where `T` is the total length and `M` is the total size
of the matching blocks found by recursively taking the longest matching
block (earliest in `a`, then in `b`, on ties). -/

/-- difflib's `b2j`: the ascending list of positions of `c` in `b`. -/
def b2j (b : List Char) (c : Char) : List Nat :=
  (List.range b.length).filter (fun j => b.get? j = some c)

/-- The best block found so far: start in `a`, start in `b`, length. -/
structure FlmBest where
  i : Nat
  j : Nat
  size : Nat
deriving Repr, DecidableEq

/-- One row (fixed `i`) of difflib's `find_longest_match` dynamic program:
`st.1` is the previous row's `j2len` (0 where unset), `st.2` the best so
far.  A best is replaced only by a strictly longer block, so ties keep the
earliest `i`, then the earliest `j`. -/
def flmStep (a b : List Char) (blo bhi : Nat) (st : (Nat → Nat) × FlmBest) (i : Nat) :
    (Nat → Nat) × FlmBest :=
  match a.get? i with
  | none => st
  | some c =>
    let js := (b2j b c).filter (fun j => blo ≤ j && j < bhi)
    let pairs := js.map (fun j => (j, if j = 0 then 1 else st.1 (j - 1) + 1))
    let best := pairs.foldl
      (fun best p => if p.2 > best.size then ⟨i + 1 - p.2, p.1 + 1 - p.2, p.2⟩ else best) st.2
    (fun j => ((pairs.find? (fun p => p.1 = j)).map (fun p => p.2)).getD 0, best)

/-- difflib `find_longest_match` on the region `[alo, ahi) × [blo, bhi)`
(no junk, so the post-loop junk-extension phases are no-ops). -/
def find_longest_match (a b : List Char) (alo ahi blo bhi : Nat) : FlmBest :=
  ((List.range' alo (ahi - alo)).foldl (flmStep a b blo bhi) (fun _ => 0, ⟨alo, blo, 0⟩)).2

/-- Total matched size over difflib's recursive `get_matching_blocks`.
The fuel bounds the recursion depth; `sequenceRatio` passes more fuel than
the recursion can consume, since each level strictly shrinks the
`a`-region. -/
def matchTotal (a b : List Char) : Nat → Nat → Nat → Nat → Nat → Nat
  | 0, _, _, _, _ => 0
  | fuel + 1, alo, ahi, blo, bhi =>
    let best := find_longest_match a b alo ahi blo bhi
    if best.size = 0 then 0
    else
      matchTotal a b fuel alo best.i blo best.j + best.size +
        matchTotal a b fuel (best.i + best.size) ahi (best.j + best.size) bhi

/-- `difflib.SequenceMatcher(None, a, b).ratio()`. -/
def sequenceRatio (a b : String) : ℚ :=
  let la := a.toList.length
  let lb := b.toList.length
  if la + lb = 0 then 1
  else 2 * (matchTotal a.toList b.toList (la + 1) 0 la 0 lb : ℚ) / ((la : ℚ) + (lb : ℚ))

/-! ### Query parsing (finder.py lines 233-284)

`parse_query` builds a filter dict; `float('inf')` defaults for the two
max bounds are modelled as `none`.  Code paths that can raise a Python
exception (`re.compile` on a bad pattern, `float` on a bad number, the
unit-dictionary lookup in `parse_time_filter`) live in `Except String`. -/

structure ParsedQuery where
  text : List String
  ext : Option String
  regex : Option String
  category : Option String
  min_size : ℚ
  max_size : Option ℚ
  min_date : ℚ
  max_date : Option ℚ
  content_search : Bool
  target : String
  target_clean : String
deriving Repr, DecidableEq

/-- The filter dict as initialized at the top of `parse_query`. -/
def initFilters : ParsedQuery :=
  ⟨[], none, none, none, 0, none, 0, none, false, "", ""⟩

/-- Models the validity check performed by `re.compile`: the failure
conditions exercised in this development are an unterminated character
class, an unbalanced parenthesis and a dangling escape (Python's full
pattern grammar has further error cases, all outside the inputs used
here).  State: remaining input, open-parenthesis depth, character-class
state (0 outside, 1 just after `[`, 2 just after `[^`, 3 inside), and
whether the previous character was an unconsumed backslash. -/
def reScan : List Char → Nat → Nat → Bool → Bool
  | [], d, cls, esc => !esc && d = 0 && cls = 0
  | c :: rest, d, cls, esc =>
    if esc then reScan rest d cls false
    else if c = '\\' then reScan rest d (if cls = 0 then 0 else 3) true
    else if cls = 0 then
      if c = '[' then reScan rest d 1 false
      else if c = '(' then reScan rest (d + 1) 0 false
      else if c = ')' then (if d = 0 then false else reScan rest (d - 1) 0 false)
      else reScan rest d 0 false
    else if cls = 1 then
      if c = '^' then reScan rest d 2 false
      else reScan rest d 3 false
    else if cls = 2 then reScan rest d 3 false
    else if c = ']' then reScan rest d 0 false
    else reScan rest d 3 false

/-- `re.compile(pat)` succeeds exactly when this holds (for the modelled
error conditions). -/
def reCompileOk (pat : String) : Bool := reScan pat.toList 0 0 false

/-- Models `pattern.search(name)` truthiness for compiled query regexes.
finder.py compiles with `re.IGNORECASE`; for the metacharacter-free
patterns exercised here `search` is case-insensitive substring
containment.  Metacharacter semantics are outside the modelled domain. -/
def regexSearch (pat name : String) : Bool :=
  listContainsSub (pyLower pat.toList) (pyLower name.toList)

/-- The value of a digit run, as `int`/`float` read it. -/
def digitsNat (l : List Char) : Nat :=
  l.foldl (fun acc c => acc * 10 + (c.toNat - 48)) 0

/-- Models Python `float(s)` on the strings the `size:` branch can feed it
(the branch strips `[a-zA-Z]` first, so no exponent, `inf` or `nan` forms
remain): an optional sign followed by digits with at most one decimal
point, at least one digit in total.  Digit-grouping underscores are
outside the modelled domain.  `none` models `float` raising ValueError. -/
def pyFloat (l0 : List Char) : Option ℚ :=
  let signNeg := match l0 with
    | '-' :: _ => true
    | _ => false
  let l := match l0 with
    | '+' :: r => r
    | '-' :: r => r
    | _ => l0
  let intPart := l.takeWhile Char.isDigit
  let rest := l.dropWhile Char.isDigit
  let build : List Char → Option ℚ := fun frac =>
    if intPart.isEmpty && frac.isEmpty then none
    else if frac.all Char.isDigit then
      let v : ℚ := (digitsNat intPart : ℚ) + (digitsNat frac : ℚ) / ((10 : ℚ) ^ frac.length)
      some (if signNeg then -v else v)
    else none
  match rest with
  | [] => build []
  | '.' :: frac => build frac
  | _ => none

/-- Seconds for a duration unit, as in the dict literal of
`parse_time_filter`; `none` models the KeyError a `|` unit raises. -/
def unitSeconds (u : Char) : Option ℚ :=
  if u = 'd' then some 86400
  else if u = 'w' then some 604800
  else if u = 'm' then some 2592000
  else if u = 'y' then some 31536000
  else none

/-- Models `re.match(r'([<>])?(\d+)([d|w|m|y])', val)`: an optional `<`
or `>`, a digit run, then one character from the class `d|wmy` (the `|`
inside the class is literal, so `|` is an accepted unit).  Anchored at the
start only; trailing input is ignored, as with `re.match`. -/
def pyTimeMatch (l : List Char) : Option (Nat × Char) :=
  let rest := match l with
    | c :: t => if c = '<' || c = '>' then t else l
    | [] => l
  let ds := rest.takeWhile Char.isDigit
  let r2 := rest.dropWhile Char.isDigit
  if ds.isEmpty then none
  else
    match r2 with
    | u :: _ =>
      if u = 'd' || u = '|' || u = 'w' || u = 'm' || u = 'y' then some (digitsNat ds, u)
      else none
    | [] => none

/-- finder.py `parse_time_filter` (lines 233-243).  The `.error` case is
the KeyError raised when the matched unit is the literal `|`. -/
def parse_time_filter (now : ℚ) (val0 : String) : Except String (Option ℚ) :=
  let val := pyLower val0.toList
  if val = "today".toList then Except.ok (some (now - 86400))
  else if val = "yesterday".toList then Except.ok (some (now - 86400 * 2))
  else
    match pyTimeMatch val with
    | some (num, u) =>
      match unitSeconds u with
      | some s => Except.ok (some (now - (num : ℚ) * s))
      | none => Except.error "KeyError"
    | none => Except.ok none

/-! ### Tokenization: `shlex.split` with a `raw_query.split()` fallback -/

/-- shlex's whitespace characters (`shlex.whitespace = ' \t\r\n'`). -/
def shlexSpace (c : Char) : Bool :=
  c = ' ' || c = '\t' || c = '\r' || c = '\n'

/-- Python `str.split()` whitespace on ASCII (code points 9-13 and 32);
non-ASCII whitespace is outside the modelled domain. -/
def pySplitSpace (c : Char) : Bool :=
  (9 ≤ c.toNat && c.toNat ≤ 13) || c = ' '

/-- `raw_query.split()`: split on whitespace runs, dropping empty pieces. -/
def pySplitWs (s : String) : List String :=
  ((s.toList.splitOnP pySplitSpace).filter (fun p => !p.isEmpty)).map String.mk

/-- Models POSIX `shlex.split`: whitespace-separated tokens with single
quotes (no escapes inside), double quotes (backslash escapes `"` and `\`
inside) and backslash escapes outside quotes.  An unclosed quote or a
trailing escape raises ValueError, modelled as `.error`.  Arguments:
input, current token (reversed), whether a token is open, quote state
(0 none, 1 single, 2 double), finished tokens. -/
def shlexAux : List Char → List Char → Bool → Nat → List String → Except String (List String)
  | [], tok, inTok, q, acc =>
    if q ≠ 0 then Except.error "No closing quotation"
    else Except.ok (acc ++ if inTok then [String.mk tok.reverse] else [])
  | c :: rest, tok, inTok, q, acc =>
    if q = 1 then
      if c = '\'' then shlexAux rest tok true 0 acc
      else shlexAux rest (c :: tok) true 1 acc
    else if q = 2 then
      if c = '"' then shlexAux rest tok true 0 acc
      else if c = '\\' then
        match rest with
        | [] => Except.error "No escaped character"
        | d :: rs =>
          if d = '"' || d = '\\' then shlexAux rs (d :: tok) true 2 acc
          else shlexAux rs (d :: '\\' :: tok) true 2 acc
      else shlexAux rest (c :: tok) true 2 acc
    else
      if shlexSpace c then
        if inTok then shlexAux rest [] false 0 (acc ++ [String.mk tok.reverse])
        else shlexAux rest [] false 0 acc
      else if c = '\'' then shlexAux rest tok true 1 acc
      else if c = '"' then shlexAux rest tok true 2 acc
      else if c = '\\' then
        match rest with
        | [] => Except.error "No escaped character"
        | d :: rs => shlexAux rs (d :: tok) true 0 acc
      else shlexAux rest (c :: tok) true 0 acc

/-- `shlex.split(raw_query)`. -/
def shlexSplit (raw : String) : Except String (List String) :=
  shlexAux raw.toList [] false 0 []

/-- The token list `parts` of `parse_query` (lines 253-254): `shlex.split`
with a fall back to `raw_query.split()` when shlex raises. -/
def tokenizeQuery (raw : String) : List String :=
  match shlexSplit raw with
  | Except.ok ps => ps
  | Except.error _ => pySplitWs raw

/-! ### Token processing (the body of `parse_query`'s for loop) -/

/-- `part.startswith('\\')`. -/
def startsWithBackslash (part : String) : Bool :=
  match part.toList with
  | c :: _ => c = '\\'
  | [] => false

/-- The key of a `key:value` token, lower-cased (`part.split(':', 1)[0].lower()`). -/
def tokenKey (part : String) : String :=
  String.mk (pyLower (part.toList.takeWhile (fun c => c ≠ ':')))

/-- The value of a `key:value` token (`part.split(':', 1)[1]`). -/
def tokenVal (part : String) : String :=
  String.mk ((part.toList.dropWhile (fun c => c ≠ ':')).drop 1)

/-- `val.lower().strip('.')` of the `ext` branch: strip leading and
trailing dots from the lower-cased value. -/
def stripDots (l : List Char) : List Char :=
  ((l.dropWhile (fun c => c = '.')).reverse.dropWhile (fun c => c = '.')).reverse

/-- The size multiplier from the `k`/`m`/`g` suffix of a `size:` value. -/
def sizeUnit (lv : List Char) : ℚ :=
  match lv.getLast? with
  | some c =>
    if c = 'm' then 1024 * 1024
    else if c = 'k' then 1024
    else if c = 'g' then 1024 * 1024 * 1024
    else 1
  | none => 1

/-- The characters `float` receives in the `size:` branch:
`val.replace('>', '').replace('<', '')` then `re.sub(r'[a-zA-Z]', '', ·)`. -/
def sizeNumChars (val : String) : List Char :=
  (val.toList.filter (fun c => !(c = '>' || c = '<'))).filter
    (fun c => !((97 ≤ c.toNat && c.toNat ≤ 122) || (65 ≤ c.toNat && c.toNat ≤ 90)))

/-- The value string `parse_time_filter` receives in the date branch:
`val.replace('>', '').replace('<', '')`. -/
def dateValChars (val : String) : List Char :=
  val.toList.filter (fun c => !(c = '>' || c = '<'))

/-- One iteration of `parse_query`'s token loop (lines 256-280). -/
def processToken (now : ℚ) (f : ParsedQuery) (part : String) : Except String ParsedQuery :=
  if part.toList.contains ':' && !startsWithBackslash part then
    let key := tokenKey part
    let val := tokenVal part
    if key = "ext" then
      Except.ok { f with ext := some (String.mk ('.' :: stripDots (pyLower val.toList))) }
    else if key = "regex" then
      if reCompileOk val then Except.ok { f with regex := some val }
      else Except.error "re.error"
    else if key = "content" then
      Except.ok { f with content_search := pyLower val.toList = "true".toList }
    else if key = "type" || key = "cat" then
      Except.ok { f with category := some (String.mk (pyLower val.toList)) }
    else if key = "size" then
      match pyFloat (sizeNumChars val) with
      | none => Except.error "ValueError"
      | some num =>
        let bytesVal := num * sizeUnit (pyLower val.toList)
        if val.toList.contains '>' then Except.ok { f with min_size := bytesVal }
        else if val.toList.contains '<' then Except.ok { f with max_size := some bytesVal }
        else Except.ok f
    else if key = "modified" || key = "created" || key = "accessed" then
      match parse_time_filter now (String.mk (dateValChars val)) with
      | Except.error e => Except.error e
      | Except.ok ts =>
        match ts with
        | some t =>
          if t ≠ 0 then
            if val.toList.contains '>' || strContains val "today" then
              Except.ok { f with min_date := t }
            else if val.toList.contains '<' then Except.ok { f with max_date := some t }
            else Except.ok f
          else Except.ok f
        | none => Except.ok f
    else Except.ok f
  else Except.ok { f with text := f.text ++ [part] }

/-- The keys recognized by `parse_query`'s token loop. -/
def recognizedKeys : List String :=
  ["ext", "regex", "content", "type", "cat", "size", "modified", "created", "accessed"]

/-- A `key:value` token whose key is none of the recognized keys (and
which does not start with a backslash, which would make it a text term). -/
def unrecognizedKeyed (part : String) : Prop :=
  part.toList.contains ':' = true ∧ startsWithBackslash part = false ∧
    tokenKey part ∉ recognizedKeys

instance (part : String) : Decidable (unrecognizedKeyed part) := by
  unfold unrecognizedKeyed
  infer_instance

/-- The conditions under which `parse_query` processes one token without
raising: a `regex:` value must compile, a `size:` value must survive
`float`, and a date value that matches the duration pattern must not have
the `|` unit (a date value that fails the pattern altogether is ignored,
not an error). -/
def wellFormedToken (part : String) : Bool :=
  if part.toList.contains ':' && !startsWithBackslash part then
    let key := tokenKey part
    let val := tokenVal part
    if key = "regex" then reCompileOk val
    else if key = "size" then (pyFloat (sizeNumChars val)).isSome
    else if key = "modified" || key = "created" || key = "accessed" then
      match pyTimeMatch (pyLower (dateValChars val)) with
      | some (_, u) => (unitSeconds u).isSome
      | none => true
    else true
  else true

/-- The final two lines of `parse_query`: join the text terms and
normalize them. -/
def finishParse (f : ParsedQuery) : ParsedQuery :=
  let target := String.intercalate " " f.text
  { f with target := target, target_clean := normalize_name target }

/-- `parse_query` on an already tokenized part list. -/
def parseParts (now : ℚ) (parts : List String) : Except String ParsedQuery :=
  (parts.foldlM (processToken now) initFilters).map finishParse

/-- finder.py `parse_query` (lines 245-284).  `now` is the value of
`time.time()` observed by `parse_time_filter`. -/
def parse_query (now : ℚ) (raw : String) : Except String ParsedQuery :=
  parseParts now (tokenizeQuery raw)

/-! ### The ranking scorer (finder.py lines 328-358)

`calculate_score` is a closure over the parsed query, the `fuzzy` flag,
the search memory and `time.time()`.  The filesystem reads it performs
(`open(path).read(MAX_CONTENT_READ)`) are modelled by a `content`
argument: `none` when the open/read raises (the bare `except` skips the
content check), `some text` for the text read. -/

def FUZZY_THRESHOLD : ℚ := 0.6

def MAX_CONTENT_READ : Nat := 2 * 1024 * 1024

/-- The name-match ladder that produces the initial `score` (lines
332-342): regex match 1.0; else exact 1.0 / substring 0.8 / fuzzy
`ratio * 0.7` when the query text is non-empty; else the pure
category-search score 0.8. -/
def ladderScore (q : ParsedQuery) (fuzzy : Bool) (name : String) : ℚ :=
  let name_clean := normalize_name name
  match q.regex with
  | some pat => if regexSearch pat name then 1 else 0
  | none =>
    if q.target_clean ≠ "" then
      if q.target_clean = name_clean then 1
      else if strContains name_clean q.target_clean then 0.8
      else if fuzzy then
        let ratio := sequenceRatio q.target_clean name_clean
        if FUZZY_THRESHOLD ≤ ratio then ratio * 0.7 else 0
      else 0
    else 0.8

/-- Whether `q['target'].lower() in f.read(MAX_CONTENT_READ).lower()`. -/
def contentHit (content : Option String) (target : String) : Bool :=
  match content with
  | some text =>
    listContainsSub (pyLower target.toList) (pyLower (text.toList.take MAX_CONTENT_READ))
  | none => false

/-- finder.py `calculate_score` (lines 328-358). -/
def calculate_score (q : ParsedQuery) (fuzzy : Bool) (hist : History) (now : ℚ)
    (name path : String) (is_dir : Bool) (mtime : ℚ) (content : Option String) : ℚ :=
  let score := ladderScore q fuzzy name
  if score < 0.3 then 0
  else
    let score := if now - 86400 < mtime then score + 0.1 else score
    let score := score + SearchMemory.get_boost hist q.target path
    let score :=
      if score < 0.6 ∧ q.content_search = true ∧ is_dir = false then
        if contentHit content q.target then 0.95 else score
      else score
    min score 1

/-! ### The persistent index (finder.py lines 52-188)

The `files` table has `path TEXT PRIMARY KEY`, so its contents denote a
finite map keyed by path; `IndexDB` is that map.  `INSERT OR REPLACE`
is insert-or-replace on the map. -/

structure FileRow where
  path : String
  name : String
  ext : String
  category : String
  size : ℚ
  mtime : ℚ
  lower_name : String
deriving Repr, DecidableEq

abbrev IndexDB := String → Option FileRow

/-- The effect of one `INSERT OR REPLACE INTO files VALUES (...)` row. -/
def upsertRow (db : IndexDB) (r : FileRow) : IndexDB :=
  fun p => if p = r.path then some r else db p

/-- `Librarian._write_batch` (lines 137-143): `executemany` of
`INSERT OR REPLACE`, row by row in batch order. -/
def write_batch (db : IndexDB) (batch : List FileRow) : IndexDB :=
  batch.foldl upsertRow db

/-! ### The search generator (finder.py lines 308-420)

The generator's interactions with the outside world are modelled as
arguments: `ready` is `librarian.is_ready`; `table` the rows of the
`files` table in scan order; `dirs` the priority directories, each as its
`os.scandir` entry list; `fsIsDir p` the result of `os.path.isdir p` /
`entry.is_dir()`; `fsContent p` what reading `p` yields (`none` when
opening raises).  The Phase 2 timeout only truncates the stream and is
modelled as never expiring. -/

structure DirEntry where
  name : String
  path : String
  is_dir : Bool
  mtime : ℚ
deriving Repr, DecidableEq

structure SearchResult where
  path : String
  name : String
  score : ℚ
deriving Repr, DecidableEq

/-- `FILE_TYPES.get(cat, set())` (lines 30-36). -/
def fileTypes (cat : String) : List String :=
  if cat = "image" then [".jpg", ".jpeg", ".png", ".gif", ".bmp", ".svg", ".webp", ".ico", ".tiff"]
  else if cat = "video" then [".mp4", ".mkv", ".avi", ".mov", ".webm", ".flv", ".m4v"]
  else if cat = "audio" then [".mp3", ".wav", ".aac", ".flac", ".ogg", ".m4a", ".wma"]
  else if cat = "code" then [".py", ".js", ".html", ".css", ".java", ".cpp", ".rs", ".go",
    ".ts", ".json", ".sql", ".sh", ".md", ".yml", ".toml", ".bat", ".ps1"]
  else if cat = "doc" then [".pdf", ".docx", ".doc", ".txt", ".rtf", ".xlsx", ".pptx", ".csv",
    ".log", ".msg", ".odt"]
  else []

/-- The extension part of `os.path.splitext(name)`: everything from the
last dot, except that the leading run of dots never starts an extension. -/
def splitextExt (name : String) : String :=
  let rest := name.toList.dropWhile (fun c => c = '.')
  if rest.contains '.' then
    String.mk ('.' :: (rest.reverse.takeWhile (fun c => c ≠ '.')).reverse)
  else ""

/-- `entry.name.endswith(ext)`. -/
def strEndsWith (s suffix : String) : Bool :=
  suffix.toList.reverse.isPrefixOf s.toList.reverse

/-- Adding a path to the `seen_paths` set. -/
def insertSeen (seen : List String) (p : String) : List String :=
  if p ∈ seen then seen else p :: seen

/-- The WHERE clause Phase 1 builds (lines 361-379), applied to one row:
extension, explicit category (falling back to the implicit category from
`item_type` when that is not `file`/`folder`), and the min size/date
bounds when they are positive.  No max bound is ever added. -/
def rowPasses (q : ParsedQuery) (item_type : String) (r : FileRow) : Bool :=
  (match q.ext with
   | some e => r.ext = e
   | none => true) &&
  (match q.category with
   | some c => r.category = c
   | none =>
     if item_type ≠ "file" && item_type ≠ "folder" then r.category = item_type else true) &&
  (if 0 < q.min_size then q.min_size ≤ r.size else true) &&
  (if 0 < q.min_date then q.min_date ≤ r.mtime else true)

/-- `librarian.query` (lines 165-178) under the Phase 1 SQL: every table
row passing the WHERE clause, or nothing when the librarian is not ready. -/
def librarianQuery (ready : Bool) (table : List FileRow) (q : ParsedQuery)
    (item_type : String) : List FileRow :=
  if ready then table.filter (rowPasses q item_type) else []

/-- Phase 1 (lines 384-393): score each index candidate, yield those
scoring above 0.4 and record their paths in `seen_paths`. -/
def phase1 (q : ParsedQuery) (item_type : String) (fuzzy : Bool) (hist : History) (now : ℚ)
    (fsIsDir : String → Bool) (fsContent : String → Option String) :
    List FileRow → List String → List SearchResult × List String
  | [], seen => ([], seen)
  | r :: rest, seen =>
    let is_dir := fsIsDir r.path
    if item_type = "folder" ∧ is_dir = false then
      phase1 q item_type fuzzy hist now fsIsDir fsContent rest seen
    else if item_type = "file" ∧ is_dir = true then
      phase1 q item_type fuzzy hist now fsIsDir fsContent rest seen
    else
      let score := calculate_score q fuzzy hist now r.name r.path is_dir r.mtime (fsContent r.path)
      if 0.4 < score then
        let rec_ := phase1 q item_type fuzzy hist now fsIsDir fsContent rest (insertSeen seen r.path)
        (⟨r.path, r.name, score⟩ :: rec_.1, rec_.2)
      else phase1 q item_type fuzzy hist now fsIsDir fsContent rest seen

/-- Phase 2, one priority directory (lines 400-419): skip paths already
seen, apply the manual min-date / extension / category filters, then
score and yield above 0.4. -/
def phase2Dir (q : ParsedQuery) (item_type : String) (fuzzy : Bool) (hist : History) (now : ℚ)
    (fsContent : String → Option String) :
    List DirEntry → List String → List SearchResult × List String
  | [], seen => ([], seen)
  | e :: rest, seen =>
    if e.path ∈ seen then phase2Dir q item_type fuzzy hist now fsContent rest seen
    else if 0 < q.min_date ∧ e.mtime < q.min_date then
      phase2Dir q item_type fuzzy hist now fsContent rest seen
    else if (match q.ext with
             | some x => !strEndsWith e.name x
             | none => false) then
      phase2Dir q item_type fuzzy hist now fsContent rest seen
    else if item_type ≠ "file" ∧ item_type ≠ "folder" ∧ e.is_dir = false ∧
        String.mk (pyLower (splitextExt e.name).toList) ∉ fileTypes item_type then
      phase2Dir q item_type fuzzy hist now fsContent rest seen
    else
      let score := calculate_score q fuzzy hist now e.name e.path e.is_dir e.mtime
        (fsContent e.path)
      if 0.4 < score then
        let rec_ := phase2Dir q item_type fuzzy hist now fsContent rest (insertSeen seen e.path)
        (⟨e.path, e.name, score⟩ :: rec_.1, rec_.2)
      else phase2Dir q item_type fuzzy hist now fsContent rest seen

/-- Phase 2 over all priority directories (lines 398-420). -/
def phase2 (q : ParsedQuery) (item_type : String) (fuzzy : Bool) (hist : History) (now : ℚ)
    (fsContent : String → Option String) :
    List (List DirEntry) → List String → List SearchResult × List String
  | [], seen => ([], seen)
  | d :: ds, seen =>
    let r1 := phase2Dir q item_type fuzzy hist now fsContent d seen
    let r2 := phase2 q item_type fuzzy hist now fsContent ds r1.2
    (r1.1 ++ r2.1, r2.2)

/-- finder.py `search_generator` (lines 308-420), for an already parsed
query: the empty-query early return, Phase 1 over the index, then Phase 2
over the priority directories when fewer than 10 paths were seen. -/
def search_generator (ready : Bool) (table : List FileRow) (dirs : List (List DirEntry))
    (fsIsDir : String → Bool) (fsContent : String → Option String) (q : ParsedQuery)
    (item_type : String) (fuzzy : Bool) (hist : History) (now : ℚ) : List SearchResult :=
  if q.target_clean = "" ∧ q.regex = none ∧ q.category = none ∧ item_type = "folder" then []
  else
    let cands := librarianQuery ready table q item_type
    let p1 := phase1 q item_type fuzzy hist now fsIsDir fsContent cands []
    if p1.2.length < 10 then
      p1.1 ++ (phase2 q item_type fuzzy hist now fsContent dirs p1.2).1
    else p1.1

/-- `search_generator` from the raw query string: `parse_query` runs
inside the generator, so its exceptions propagate to the caller. -/
def search_generator_raw (ready : Bool) (table : List FileRow) (dirs : List (List DirEntry))
    (fsIsDir : String → Bool) (fsContent : String → Option String) (raw : String)
    (item_type : String) (fuzzy : Bool) (hist : History) (now : ℚ) :
    Except String (List SearchResult) :=
  (parse_query now raw).map
    (fun q => search_generator ready table dirs fsIsDir fsContent q item_type fuzzy hist now)

/-! ### Ranking (finder.py lines 426-446) -/

/-- Insert a result into a list sorted by descending score, after every
element whose score is at least as large: `matches.sort(key=..., reverse=True)`
is a stable sort, and a stable descending sort is exactly the iterated
version of this insertion. -/
def insertDesc (r : SearchResult) : List SearchResult → List SearchResult
  | [] => [r]
  | x :: xs => if r.score < x.score then x :: insertDesc r xs else r :: x :: xs

/-- Stable sort by descending score. -/
def sortDesc (l : List SearchResult) : List SearchResult := l.foldr insertDesc []

/-- `target.strip()` (ASCII whitespace). -/
def pyStrip (s : String) : String :=
  String.mk ((s.toList.dropWhile pySplitSpace).reverse.dropWhile pySplitSpace).reverse

/-- `.strip('"')`. -/
def stripQuotes (s : String) : String :=
  String.mk ((s.toList.dropWhile (fun c => c = '"')).reverse.dropWhile
    (fun c => c = '"')).reverse

/-- `os.path.basename` (POSIX): the part after the last `/`. -/
def basename (s : String) : String :=
  String.mk (s.toList.reverse.takeWhile (fun c => c ≠ '/')).reverse

/-- finder.py `find_path_ranked` (lines 426-446): the literal-path
shortcut, then up to 101 generator results (the loop breaks once more
than 100 matches accumulated), stably sorted by descending score,
truncated to `limit`.  `fsExists p` models `os.path.exists p`. -/
def find_path_ranked (fsExists : String → Bool) (ready : Bool) (table : List FileRow)
    (dirs : List (List DirEntry)) (fsIsDir : String → Bool)
    (fsContent : String → Option String) (target : String) (item_type : String)
    (limit : Nat) (fuzzy : Bool) (hist : History) (now : ℚ) :
    Except String (List SearchResult) :=
  let clean_target := stripQuotes (pyStrip target)
  if fsExists clean_target then
    Except.ok [⟨clean_target, basename clean_target, 1⟩]
  else
    (search_generator_raw ready table dirs fsIsDir fsContent target item_type fuzzy hist
      now).map (fun ms => (sortDesc (ms.take 101)).take limit)

/-! ### Lemmas about normalization -/

theorem charToNat_ofNat (n : Nat) (h : n < 55296) : (Char.ofNat n).toNat = n := by
  have hv : Nat.isValidChar n := Or.inl h
  simp only [Char.ofNat, hv, dite_true, Char.ofNatAux, Char.toNat]
  rfl

theorem pyLowerChar_not_upper (c : Char) :
    ¬(65 ≤ (pyLowerChar c).toNat ∧ (pyLowerChar c).toNat ≤ 90) := by
  unfold pyLowerChar
  split
  · next h => rw [charToNat_ofNat _ (by omega)]; omega
  · next h => exact h

theorem pyLowerChar_ascii (c : Char) (h : c.toNat < 128) : (pyLowerChar c).toNat < 128 := by
  unfold pyLowerChar
  split
  · next h2 => rw [charToNat_ofNat _ (by omega)]; omega
  · exact h

theorem pyLowerChar_eq_self (c : Char) (h : ¬(65 ≤ c.toNat ∧ c.toNat ≤ 90)) :
    pyLowerChar c = c := by
  unfold pyLowerChar
  exact if_neg h

theorem nfkdChar_ascii (c : Char) (h : c.toNat < 128) : nfkdChar c = [c] := by
  unfold nfkdChar
  rw [if_neg]
  intro e
  subst e
  exact absurd h (by decide)

theorem flatMap_eq_self {α : Type} (f : α → List α) (l : List α)
    (h : ∀ c ∈ l, f c = [c]) : l.flatMap f = l := by
  induction l with
  | nil => rfl
  | cons a t ih =>
    simp only [List.flatMap_cons, h a (List.mem_cons_self a t),
      ih (fun c hc => h c (List.mem_cons_of_mem a hc))]
    rfl

theorem mem_normChars (l : List Char) (c : Char) (hc : c ∈ normChars l) :
    c.toNat < 128 ∧ isStripped c = false := by
  unfold normChars asciiIgnore at hc
  have h1 := List.mem_filter.mp hc
  have h2 := List.mem_filter.mp h1.1
  refine ⟨by simpa using h2.2, by simpa using h1.2⟩

theorem mem_normChars_not_upper (l : List Char) (hl : ∀ c ∈ l, c.toNat < 128) (c : Char)
    (hc : c ∈ normChars l) : ¬(65 ≤ c.toNat ∧ c.toNat ≤ 90) := by
  unfold normChars asciiIgnore at hc
  have h2 := (List.mem_filter.mp (List.mem_filter.mp hc).1).1
  obtain ⟨a, ha, hca⟩ := List.mem_flatMap.mp h2
  obtain ⟨b, hb, rfl⟩ := List.mem_map.mp ha
  rw [nfkdChar_ascii _ (pyLowerChar_ascii b (hl b hb))] at hca
  have he : c = pyLowerChar b := by simpa using hca
  subst he
  exact pyLowerChar_not_upper b

theorem normChars_idem (l : List Char) (hl : ∀ c ∈ l, c.toNat < 128) :
    normChars (normChars l) = normChars l := by
  have hascii : ∀ c ∈ normChars l, c.toNat < 128 := fun c hc => (mem_normChars l c hc).1
  have hstr : ∀ c ∈ normChars l, isStripped c = false := fun c hc => (mem_normChars l c hc).2
  have hnup := mem_normChars_not_upper l hl
  have h1 : pyLower (normChars l) = normChars l := by
    unfold pyLower
    rw [List.map_congr_left (fun c hc => pyLowerChar_eq_self c (hnup c hc))]
    exact List.map_id _
  have h2 : (normChars l).flatMap nfkdChar = normChars l :=
    flatMap_eq_self _ _ (fun c hc => nfkdChar_ascii c (hascii c hc))
  have h3 : asciiIgnore (normChars l) = normChars l := by
    unfold asciiIgnore
    exact List.filter_eq_self.mpr (fun c hc => by simpa using hascii c hc)
  have h4 : (normChars l).filter (fun c => !isStripped c) = normChars l :=
    List.filter_eq_self.mpr (fun c hc => by simp [hstr c hc])
  conv_lhs => rw [normChars, h1, h2, h3, h4]

/-! ### Lemmas about the index upsert -/

theorem write_batch_notin : ∀ (b : List FileRow) (db : IndexDB) (p : String),
    p ∉ b.map FileRow.path → write_batch db b p = db p
  | [], _, _, _ => rfl
  | r :: t, db, p, h => by
    simp only [List.map_cons, List.mem_cons, not_or] at h
    show write_batch (upsertRow db r) t p = db p
    rw [write_batch_notin t (upsertRow db r) p h.2]
    exact if_neg h.1

theorem write_batch_mem : ∀ (b : List FileRow) (db db' : IndexDB) (p : String),
    p ∈ b.map FileRow.path → write_batch db b p = write_batch db' b p
  | [], _, _, _, h => absurd h (List.not_mem_nil _)
  | r :: t, db, db', p, h => by
    by_cases hm : p ∈ t.map FileRow.path
    · exact write_batch_mem t (upsertRow db r) (upsertRow db' r) p hm
    · have hp : p = r.path := by
        simp only [List.map_cons, List.mem_cons] at h
        tauto
      show write_batch (upsertRow db r) t p = write_batch (upsertRow db' r) t p
      rw [write_batch_notin t (upsertRow db r) p hm,
        write_batch_notin t (upsertRow db' r) p hm]
      unfold upsertRow
      rw [if_pos hp, if_pos hp]

end Mio

/-! ## The claims -/

/-- Claim C4, counterexample: `normalize_name` does NOT remove every
character that is not an ASCII letter or digit.  On the input "a!" the
exclamation mark survives, so the output is not made of ASCII letters and
digits only.  (The final `re.sub(r'[\s_\-\.]', '', ·)` only removes
whitespace, underscores, hyphens and dots.) -/
theorem claim4_counterexample :
    Mio.normalize_name "a!" = "a!" ∧
      ¬(∀ c ∈ (Mio.normalize_name "a!").toList, c.isAlphanum = true) := by
  constructor
  · decide
  · decide

/-- Claim C4 (amended): `normalize_name` lower-cases its input, strips
diacritics by compatibility decomposition followed by dropping non-ASCII
code points, and removes every whitespace, underscore, hyphen and period
character; consequently every character of its output is an ASCII
character that is none of those — but it need not be a letter or digit
(other punctuation is retained). -/
theorem claim4_output_ascii_unstripped (s : String) (c : Char)
    (hc : c ∈ (Mio.normalize_name s).toList) :
    c.toNat < 128 ∧ Mio.isStripped c = false := by
  unfold Mio.normalize_name at hc
  by_cases hs : s = ""
  · rw [if_pos hs] at hc
    have he : ("" : String).toList = [] := rfl
    rw [he] at hc
    exact absurd hc (List.not_mem_nil c)
  · rw [if_neg hs] at hc
    exact Mio.mem_normChars _ c hc

/-- Witness for claim C4's amended theorem at a concrete input. -/
theorem claim4_output_ascii_unstripped_witness :
    'a' ∈ (Mio.normalize_name "A b").toList ∧
      ('a'.toNat < 128 ∧ Mio.isStripped 'a' = false) :=
  ⟨by decide, claim4_output_ascii_unstripped "A b" 'a' (by decide)⟩

/-- Claim C5, counterexample: normalization is NOT idempotent on all
strings.  `normalize_name "№"` is "No" (U+2116 has no lowercase mapping,
so `str.lower` keeps it, and NFKD then decomposes it to "No"), while a
second application lower-cases that to "no". -/
theorem claim5_counterexample :
    Mio.normalize_name (Mio.normalize_name "№") ≠ Mio.normalize_name "№" := by
  decide

/-- Claim C5 (amended): normalization is idempotent on every string made
of ASCII characters; the failure is confined to non-ASCII characters
whose compatibility decomposition introduces uppercase letters after
lower-casing has already happened. -/
theorem claim5_normalize_idempotent_ascii (s : String)
    (h : ∀ c ∈ s.toList, c.toNat < 128) :
    Mio.normalize_name (Mio.normalize_name s) = Mio.normalize_name s := by
  unfold Mio.normalize_name
  by_cases hs : s = ""
  · rw [if_pos hs]
    decide
  · rw [if_neg hs]
    by_cases hm : String.mk (Mio.normChars s.toList) = ""
    · rw [if_pos hm, hm]
    · rw [if_neg hm]
      have ht : (String.mk (Mio.normChars s.toList)).toList = Mio.normChars s.toList := rfl
      rw [ht, Mio.normChars_idem s.toList h]

/-- Witness for claim C5's amended theorem at a concrete input. -/
theorem claim5_normalize_idempotent_ascii_witness :
    (∀ c ∈ ("My_File-V2.txt" : String).toList, c.toNat < 128) ∧
      Mio.normalize_name (Mio.normalize_name "My_File-V2.txt") =
        Mio.normalize_name "My_File-V2.txt" :=
  ⟨by decide, claim5_normalize_idempotent_ascii "My_File-V2.txt" (by decide)⟩

/-- Claim C7: the `files` table is keyed by the `path` primary key and
`_write_batch` writes with `INSERT OR REPLACE`, so replaying the same
batch of rows (as produced by scanning an unchanged directory tree) over
the store leaves the store — and hence its row count and every row's
contents — exactly as after the first pass. -/
theorem claim7_upsert_idempotent (db : Mio.IndexDB) (batch : List Mio.FileRow) :
    Mio.write_batch (Mio.write_batch db batch) batch = Mio.write_batch db batch := by
  funext p
  by_cases h : p ∈ batch.map Mio.FileRow.path
  · exact Mio.write_batch_mem batch _ db p h
  · rw [Mio.write_batch_notin batch _ p h]

/-- Claim C3, counterexample: `LearnSelection(q, p)` does NOT strictly
increase the score of candidate `p` for query `q` in all cases.  For the
query "doc" and an exactly matching candidate "doc" at path "/p", the
unlearned score is already 1.0 and the learned score is
`min(1.0 + 0.4, 1.0) = 1.0`: no strict increase.  The first conjunct
checks that this query is exactly what `parse_query` produces; the second
that learning did store the boost; the third refutes strictness. -/
theorem claim3_counterexample :
    Mio.parse_query 1000000 "doc" =
        Except.ok ⟨["doc"], none, none, none, 0, none, 0, none, false, "doc", "doc"⟩ ∧
      Mio.SearchMemory.get_boost
          (Mio.SearchMemory.learn (fun _ => none) "doc" "/p") "doc" "/p" = 0.4 ∧
      ¬(Mio.calculate_score
            ⟨["doc"], none, none, none, 0, none, 0, none, false, "doc", "doc"⟩ true
            (Mio.SearchMemory.learn (fun _ => none) "doc" "/p") 1000000 "doc" "/p" false 0
            none >
          Mio.calculate_score
            ⟨["doc"], none, none, none, 0, none, 0, none, false, "doc", "doc"⟩ true
            (fun _ => none) 1000000 "doc" "/p" false 0 none) := by
  refine ⟨by decide, by decide, by decide⟩

/-- Claim C3 (amended): `GetBoost` returns exactly 0.4 when the
normalized query's remembered path equals the given path (in particular
right after `LearnSelection(q, p)`) and 0 otherwise; and
`LearnSelection(q, p)` strictly increases the score of candidate `p` for
query `q` relative to an unlearned identical candidate provided the
candidate's name-ladder score is at least 0.3 (the early return keeps a
non-matching candidate at 0 regardless of boosts), the unlearned score is
below the 1.0 cap, and the content-search rescue does not apply
(otherwise the boost can be absorbed by the cap or bypassed by the 0.95
content rewrite). -/
theorem claim3_boost_amended :
    (∀ (h : Mio.History) (q p : String),
        Mio.SearchMemory.get_boost (Mio.SearchMemory.learn h q p) q p = 0.4) ∧
      (∀ (h : Mio.History) (q p : String), h (Mio.normalize_name q) ≠ some p →
        Mio.SearchMemory.get_boost h q p = 0) ∧
      (∀ (q : Mio.ParsedQuery) (fuzzy : Bool) (hist : Mio.History) (now : ℚ)
          (name path : String) (is_dir : Bool) (mtime : ℚ) (content : Option String),
        hist (Mio.normalize_name q.target) ≠ some path →
        0.3 ≤ Mio.ladderScore q fuzzy name →
        Mio.calculate_score q fuzzy hist now name path is_dir mtime content < 1 →
        (q.content_search = false ∨ is_dir = true ∨
          Mio.contentHit content q.target = false) →
        Mio.calculate_score q fuzzy (Mio.SearchMemory.learn hist q.target path) now name
            path is_dir mtime content >
          Mio.calculate_score q fuzzy hist now name path is_dir mtime content) := by
  refine ⟨?_, ?_, ?_⟩
  · intro h q p
    unfold Mio.SearchMemory.get_boost Mio.SearchMemory.learn
    simp
  · intro h q p hne
    unfold Mio.SearchMemory.get_boost
    exact if_neg hne
  · intro q fuzzy hist now name path is_dir mtime content h1 hb hcap hnc
    have hb' : ¬Mio.ladderScore q fuzzy name < 0.3 := not_lt.mpr hb
    have hbo1 : Mio.SearchMemory.get_boost hist q.target path = 0 := by
      unfold Mio.SearchMemory.get_boost
      exact if_neg h1
    have hbo2 : Mio.SearchMemory.get_boost
        (Mio.SearchMemory.learn hist q.target path) q.target path = 0.4 := by
      unfold Mio.SearchMemory.get_boost Mio.SearchMemory.learn
      simp
    set m := if now - 86400 < mtime then Mio.ladderScore q fuzzy name + 0.1
      else Mio.ladderScore q fuzzy name with hmdef
    have hm : (0.3 : ℚ) ≤ m := by
      rw [hmdef]
      split
      · linarith
      · exact hb
    have eq_u : Mio.calculate_score q fuzzy hist now name path is_dir mtime content =
        min m 1 := by
      unfold Mio.calculate_score
      rw [if_neg hb', hbo1]
      dsimp only
      rw [add_zero, ← hmdef]
      by_cases hcnd : m < 0.6 ∧ q.content_search = true ∧ is_dir = false
      · rw [if_pos hcnd]
        rcases hnc with h | h | h
        · rw [h] at hcnd
          exact absurd hcnd.2.1 (by simp)
        · rw [h] at hcnd
          exact absurd hcnd.2.2 (by simp)
        · rw [h]
          simp
      · rw [if_neg hcnd]
    have eq_l : Mio.calculate_score q fuzzy (Mio.SearchMemory.learn hist q.target path)
        now name path is_dir mtime content = min (m + 0.4) 1 := by
      have hlr : ¬(m + 0.4 < 0.6 ∧ q.content_search = true ∧ is_dir = false) := by
        intro hc
        linarith [hc.1]
      unfold Mio.calculate_score
      rw [if_neg hb', hbo2]
      dsimp only
      rw [← hmdef, if_neg hlr]
    rw [eq_u] at hcap
    rw [eq_u, eq_l]
    have hm1 : m < 1 := by
      rcases min_cases m 1 with ⟨he, _⟩ | ⟨he, hlt⟩
      · rwa [he] at hcap
      · rw [he] at hcap
        exact absurd hcap (lt_irrefl 1)
    rw [min_eq_left (le_of_lt hm1)]
    rcases min_cases (m + 0.4) 1 with ⟨he, _⟩ | ⟨he, _⟩
    · rw [he]
      linarith
    · rw [he]
      exact hm1

/-- Witness for claim C3's amended theorem at concrete inputs: the query
"repot" against the candidate "Report" has fuzzy ladder score
(10/11)*0.7 ≥ 0.3, the unlearned score is below 1, and no content rescue
applies; learning "/d/A" for "repot" then strictly increases the score. -/
theorem claim3_boost_amended_witness :
    Mio.SearchMemory.get_boost
        (Mio.SearchMemory.learn (fun _ => none) "repot" "/d/A") "repot" "/d/A" = 0.4 ∧
      Mio.SearchMemory.get_boost (fun _ => none) "repot" "/d/A" = 0 ∧
      Mio.calculate_score
          ⟨["repot"], none, none, none, 0, none, 0, none, false, "repot", "repot"⟩ true
          (Mio.SearchMemory.learn (fun _ => none) "repot" "/d/A") 1000000 "Report" "/d/A"
          false 0 none >
        Mio.calculate_score
          ⟨["repot"], none, none, none, 0, none, 0, none, false, "repot", "repot"⟩ true
          (fun _ => none) 1000000 "Report" "/d/A" false 0 none :=
  ⟨claim3_boost_amended.1 (fun _ => none) "repot" "/d/A",
    claim3_boost_amended.2.1 (fun _ => none) "repot" "/d/A" (by decide),
    claim3_boost_amended.2.2
      ⟨["repot"], none, none, none, 0, none, 0, none, false, "repot", "repot"⟩ true
      (fun _ => none) 1000000 "Report" "/d/A" false 0 none (by decide) (by decide)
      (by decide) (Or.inl (by decide))⟩

/-- Claim C10: the content-search fallback can never surface a candidate
whose name does not match the query at all.  When the name-match ladder
yields 0 — a regex that does not match the name, or non-empty query text
with no exact, substring, or above-threshold fuzzy match — the `< 0.3`
early return fires before the content check, so the score is 0 even with
`content:true` and the query text present in the file's content. -/
theorem claim10_content_cannot_rescue (q : Mio.ParsedQuery) (fuzzy : Bool)
    (hist : Mio.History) (now : ℚ) (name path : String) (mtime : ℚ)
    (content : Option String)
    (hbase : (∃ pat, q.regex = some pat ∧ Mio.regexSearch pat name = false) ∨
      (q.regex = none ∧ q.target_clean ≠ "" ∧
        q.target_clean ≠ Mio.normalize_name name ∧
        Mio.strContains (Mio.normalize_name name) q.target_clean = false ∧
        (fuzzy = true →
          Mio.sequenceRatio q.target_clean (Mio.normalize_name name) <
            Mio.FUZZY_THRESHOLD)))
    (hcs : q.content_search = true) (hhit : Mio.contentHit content q.target = true) :
    Mio.calculate_score q fuzzy hist now name path false mtime content = 0 := by
  have hl : Mio.ladderScore q fuzzy name = 0 := by
    unfold Mio.ladderScore
    rcases hbase with ⟨pat, hp, hm⟩ | ⟨hn, ht, hne, hsub, hfz⟩
    · rw [hp]
      dsimp only
      rw [hm]
      simp
    · rw [hn]
      dsimp only
      rw [if_pos ht, if_neg hne, hsub]
      simp only [Bool.false_eq_true, if_false]
      cases fuzzy with
      | false => simp
      | true =>
        rw [if_pos rfl]
        rw [if_neg (not_le.mpr (hfz rfl))]
  unfold Mio.calculate_score
  rw [hl, if_pos (by norm_num)]

/-- Witness for claim C10 at concrete inputs: query text "xyzq" shares no
character with the name "Report" (fuzzy ratio 0), content search is on
and the file content contains "xyzq", yet the score is 0. -/
theorem claim10_content_cannot_rescue_witness :
    (⟨["xyzq"], none, none, none, 0, none, 0, none, true, "xyzq",
        "xyzq"⟩ : Mio.ParsedQuery).content_search = true ∧
      Mio.contentHit (some "xyzq is here") "xyzq" = true ∧
      Mio.calculate_score
          ⟨["xyzq"], none, none, none, 0, none, 0, none, true, "xyzq", "xyzq"⟩ true
          (fun _ => none) 1000000 "Report" "/d/A" false 0 (some "xyzq is here") = 0 :=
  ⟨by decide, by decide,
    claim10_content_cannot_rescue
      ⟨["xyzq"], none, none, none, 0, none, 0, none, true, "xyzq", "xyzq"⟩ true
      (fun _ => none) 1000000 "Report" "/d/A" 0 (some "xyzq is here")
      (Or.inr (by decide)) (by decide) (by decide)⟩

namespace Mio

/-! ### Lemmas about scoring and sorting -/

theorem get_boost_nonneg (h : History) (q p : String) : 0 ≤ SearchMemory.get_boost h q p := by
  unfold SearchMemory.get_boost
  split
  · norm_num
  · norm_num

theorem mem_insertDesc : ∀ (r x : SearchResult) (l : List SearchResult),
    x ∈ insertDesc r l → x = r ∨ x ∈ l
  | r, x, [], h => by
    simp only [insertDesc] at h
    exact Or.inl (by simpa using h)
  | r, x, a :: t, h => by
    simp only [insertDesc] at h
    split at h
    · rcases List.mem_cons.mp h with he | hm
      · exact Or.inr (List.mem_cons.mpr (Or.inl he))
      · rcases mem_insertDesc r x t hm with he | hm2
        · exact Or.inl he
        · exact Or.inr (List.mem_cons.mpr (Or.inr hm2))
    · rcases List.mem_cons.mp h with he | hm
      · exact Or.inl he
      · exact Or.inr hm

theorem pairwise_insertDesc : ∀ (r : SearchResult) (l : List SearchResult),
    l.Pairwise (fun a b => b.score ≤ a.score) →
    (insertDesc r l).Pairwise (fun a b => b.score ≤ a.score)
  | r, [], _ => by simp [insertDesc]
  | r, a :: t, h => by
    rcases List.pairwise_cons.mp h with ⟨ha, ht⟩
    simp only [insertDesc]
    split
    · next hlt =>
      refine List.pairwise_cons.mpr ⟨?_, pairwise_insertDesc r t ht⟩
      intro x hx
      rcases mem_insertDesc r x t hx with he | hm
      · rw [he]
        exact le_of_lt hlt
      · exact ha x hm
    · next hge =>
      refine List.pairwise_cons.mpr ⟨?_, h⟩
      intro x hx
      rcases List.mem_cons.mp hx with he | hm
      · rw [he]
        exact not_lt.mp hge
      · exact le_trans (ha x hm) (not_lt.mp hge)

theorem sortDesc_pairwise : ∀ l : List SearchResult,
    (sortDesc l).Pairwise (fun a b => b.score ≤ a.score)
  | [] => by simp [sortDesc]
  | a :: t => pairwise_insertDesc a (sortDesc t) (sortDesc_pairwise t)

end Mio

/-- Claim C2, counterexample: an exact-match candidate is NOT always
placed strictly above every candidate matching the same query only by
substring containment.  For the query "report", the candidate "Report"
(path /d/A) matches exactly (normalized name "report", score 1.0), while
"report final.txt" (path /d/B) matches only by substring containment
(base 0.8) — but B gains the 24h-recency bonus (+0.1) and the learned
selection boost (+0.4), is capped at `min(1.3, 1.0) = 1.0`, ties with A,
and the stable descending sort keeps B, which Phase 1 yielded first,
strictly above A in the ranked batch. -/
theorem claim2_counterexample :
    Mio.find_path_ranked (fun _ => false) true
        [⟨"/d/B", "report final.txt", ".txt", "doc", 5, 999999, "report final.txt"⟩,
          ⟨"/d/A", "Report", "", "other", 1, 0, "report"⟩]
        [] (fun _ => false) (fun _ => none) "report" "file" 5 true
        (fun k => if k = "report" then some "/d/B" else none) 1000000 =
      Except.ok [⟨"/d/B", "report final.txt", 1⟩, ⟨"/d/A", "Report", 1⟩] ∧
      Mio.normalize_name "Report" = Mio.normalize_name "report" ∧
      Mio.normalize_name "report final.txt" ≠ Mio.normalize_name "report" ∧
      Mio.strContains (Mio.normalize_name "report final.txt")
        (Mio.normalize_name "report") = true := by
  refine ⟨by decide, by decide, by decide, by decide⟩

/-- Claim C2 (amended): a candidate whose normalized name equals the
normalized query text scores exactly 1.0; every candidate score is capped
at 1.0 by the final `min(score, 1.0)`; and the ranked batch is sorted by
non-increasing score — so the exact match is placed at or above every
substring/fuzzy match, and strictly above those whose bonus-adjusted
score stays below 1.0, but a substring/fuzzy candidate lifted to the
1.0 cap by the recency bonus and the learned-selection boost can tie with
it (and stream order then decides placement). -/
theorem claim2_exact_match_amended :
    (∀ (q : Mio.ParsedQuery) (fuzzy : Bool) (hist : Mio.History) (now : ℚ)
        (name path : String) (is_dir : Bool) (mtime : ℚ) (content : Option String),
      q.regex = none → q.target_clean ≠ "" → q.target_clean = Mio.normalize_name name →
      Mio.calculate_score q fuzzy hist now name path is_dir mtime content = 1) ∧
      (∀ (q : Mio.ParsedQuery) (fuzzy : Bool) (hist : Mio.History) (now : ℚ)
          (name path : String) (is_dir : Bool) (mtime : ℚ) (content : Option String),
        Mio.calculate_score q fuzzy hist now name path is_dir mtime content ≤ 1) ∧
      (∀ l : List Mio.SearchResult,
        (Mio.sortDesc l).Pairwise (fun a b => b.score ≤ a.score)) := by
  refine ⟨?_, ?_, Mio.sortDesc_pairwise⟩
  · intro q fuzzy hist now name path is_dir mtime content hr ht he
    have hl : Mio.ladderScore q fuzzy name = 1 := by
      unfold Mio.ladderScore
      rw [hr]
      dsimp only
      rw [if_pos ht, if_pos he]
    unfold Mio.calculate_score
    rw [hl, if_neg (by norm_num : ¬(1 : ℚ) < 0.3)]
    dsimp only
    have hbo := Mio.get_boost_nonneg hist q.target path
    set s1 := if now - 86400 < mtime then (1 : ℚ) + 0.1 else (1 : ℚ) with hs1
    have h1le : (1 : ℚ) ≤ s1 := by
      rw [hs1]
      split
      · norm_num
      · norm_num
    rw [if_neg (fun hc => by linarith [hc.1])]
    exact min_eq_right (by linarith)
  · intro q fuzzy hist now name path is_dir mtime content
    unfold Mio.calculate_score
    by_cases h : Mio.ladderScore q fuzzy name < 0.3
    · rw [if_pos h]
      norm_num
    · rw [if_neg h]
      dsimp only
      exact min_le_right _ 1

/-- Witness for claim C2's amended theorem at concrete inputs. -/
theorem claim2_exact_match_amended_witness :
    Mio.calculate_score
        ⟨["report"], none, none, none, 0, none, 0, none, false, "report", "report"⟩ true
        (fun _ => none) 1000000 "Report" "/d/A" false 0 none = 1 ∧
      Mio.calculate_score
        ⟨["report"], none, none, none, 0, none, 0, none, false, "report", "report"⟩ true
        (fun _ => none) 1000000 "report final.txt" "/d/B" false 999999 none ≤ 1 ∧
      (Mio.sortDesc [⟨"/d/B", "report final.txt", 1⟩, ⟨"/d/A", "Report", 4/5⟩]).Pairwise
        (fun a b => b.score ≤ a.score) :=
  ⟨claim2_exact_match_amended.1
      ⟨["report"], none, none, none, 0, none, 0, none, false, "report", "report"⟩ true
      (fun _ => none) 1000000 "Report" "/d/A" false 0 none rfl (by decide) (by decide),
    claim2_exact_match_amended.2.1
      ⟨["report"], none, none, none, 0, none, 0, none, false, "report", "report"⟩ true
      (fun _ => none) 1000000 "report final.txt" "/d/B" false 999999 none,
    claim2_exact_match_amended.2.2 [⟨"/d/B", "report final.txt", 1⟩, ⟨"/d/A", "Report", 4/5⟩]⟩

namespace Mio

/-! ### Lemmas about the token loop -/

theorem error_not_isOk {ε α : Type} (e : ε) : (Except.error e : Except ε α).isOk = false :=
  rfl

theorem processToken_unrecognized (now : ℚ) (f : ParsedQuery) (bad : String)
    (h : unrecognizedKeyed bad) : processToken now f bad = Except.ok f := by
  obtain ⟨h1, h2, h3⟩ := h
  have hk : ∀ s : String, s ∈ recognizedKeys → ¬tokenKey bad = s :=
    fun s hs he => h3 (he ▸ hs)
  have hne : ∀ s : String, s ∈ recognizedKeys → (tokenKey bad = s) = False :=
    fun s hs => eq_false (hk s hs)
  unfold processToken
  rw [if_pos (by rw [h1, h2]; rfl)]
  simp only [hne "ext" (by decide), hne "regex" (by decide), hne "content" (by decide),
    hne "type" (by decide), hne "cat" (by decide), hne "size" (by decide),
    hne "modified" (by decide), hne "created" (by decide), hne "accessed" (by decide)]
  simp

theorem processToken_ok (now : ℚ) (f : ParsedQuery) (part : String)
    (h : wellFormedToken part = true) : (processToken now f part).isOk = true := by
  unfold wellFormedToken at h
  unfold processToken
  by_cases hc : (part.toList.contains ':' && !startsWithBackslash part) = true
  · rw [if_pos hc] at h ⊢
    dsimp only at h ⊢
    by_cases k1 : tokenKey part = "ext"
    · rw [if_pos k1]
      rfl
    · rw [if_neg k1]
      by_cases k2 : tokenKey part = "regex"
      · rw [if_pos k2] at h ⊢
        rw [h]
        rfl
      · rw [if_neg k2] at h ⊢
        by_cases k3 : tokenKey part = "content"
        · rw [if_pos k3]
          rfl
        · rw [if_neg k3]
          by_cases k4 : (tokenKey part = "type" || tokenKey part = "cat" : Bool) = true
          · rw [if_pos k4]
            rfl
          · rw [if_neg k4]
            by_cases k5 : tokenKey part = "size"
            · rw [if_pos k5] at h ⊢
              obtain ⟨v, hv⟩ := Option.isSome_iff_exists.mp h
              rw [hv]
              dsimp only
              split
              · rfl
              · split
                · rfl
                · rfl
            · rw [if_neg k5] at h ⊢
              by_cases k6 : (tokenKey part = "modified" || tokenKey part = "created" ||
                  tokenKey part = "accessed" : Bool) = true
              · rw [if_pos k6] at h ⊢
                have hpt : (parse_time_filter now
                    (String.mk (dateValChars (tokenVal part)))).isOk = true := by
                  unfold parse_time_filter
                  by_cases t1 : pyLower (String.mk (dateValChars (tokenVal part))).toList =
                      "today".toList
                  · rw [if_pos t1]
                    rfl
                  · rw [if_neg t1]
                    by_cases t2 : pyLower (String.mk (dateValChars (tokenVal part))).toList =
                        "yesterday".toList
                    · rw [if_pos t2]
                      rfl
                    · rw [if_neg t2]
                      have he : (String.mk (dateValChars (tokenVal part))).toList =
                          dateValChars (tokenVal part) := rfl
                      rw [he]
                      cases hm : pyTimeMatch (pyLower (dateValChars (tokenVal part))) with
                      | none => rfl
                      | some p =>
                        obtain ⟨n, u⟩ := p
                        rw [hm] at h
                        obtain ⟨s, hs⟩ := Option.isSome_iff_exists.mp h
                        dsimp only
                        rw [hs]
                        rfl
                cases hres : parse_time_filter now
                    (String.mk (dateValChars (tokenVal part))) with
                | error e =>
                  rw [hres, error_not_isOk] at hpt
                  exact absurd hpt Bool.false_ne_true
                | ok ts =>
                  cases ts with
                  | none => rfl
                  | some t =>
                    dsimp only
                    split
                    · split
                      · rfl
                      · split
                        · rfl
                        · rfl
                    · rfl
              · rw [if_neg k6]
                rfl
  · rw [if_neg hc]
    rfl

theorem foldlM_processToken_drop (now : ℚ) (bad : String) (h : unrecognizedKeyed bad) :
    ∀ (xs ys : List String) (f : ParsedQuery),
      (xs ++ bad :: ys).foldlM (processToken now) f = (xs ++ ys).foldlM (processToken now) f
  | [], ys, f => by
    simp only [List.nil_append, List.foldlM_cons, processToken_unrecognized now f bad h]
    rfl
  | a :: t, ys, f => by
    simp only [List.cons_append, List.foldlM_cons]
    cases ha : processToken now f a with
    | error e => rfl
    | ok f' =>
      exact foldlM_processToken_drop now bad h t ys f'

theorem foldlM_processToken_isOk (now : ℚ) :
    ∀ (parts : List String) (f : ParsedQuery),
      (∀ p ∈ parts, wellFormedToken p = true) →
      ((parts.foldlM (processToken now) f)).isOk = true
  | [], f, _ => rfl
  | a :: t, f, h => by
    simp only [List.foldlM_cons]
    have ha := processToken_ok now f a (h a (List.mem_cons_self a t))
    cases hres : processToken now f a with
    | error e =>
      rw [hres, error_not_isOk] at ha
      exact absurd ha Bool.false_ne_true
    | ok f' =>
      exact foldlM_processToken_isOk now t f'
        (fun p hp => h p (List.mem_cons_of_mem a hp))

end Mio

/-- Claim C6, counterexample: a `key:value` token with an unrecognized
key is NOT treated as a plain text term.  Parsing "foo:bar hello" drops
"foo:bar" entirely: the text terms are just ["hello"] and the joined
target is "hello", whereas the claim requires "foo:bar" among the text
terms and in the target. -/
theorem claim6_counterexample :
    Mio.parse_query 1000000 "foo:bar hello" =
        Except.ok ⟨["hello"], none, none, none, 0, none, 0, none, false, "hello", "hello"⟩ ∧
      Mio.unrecognizedKeyed "foo:bar" := by
  refine ⟨by decide, by decide⟩

/-- Claim C6 (amended): a token whose key is unrecognized is silently
discarded — it contributes neither a filter nor a text term, and the
parse result is exactly as if the token were absent.  (Only tokens
without a colon, or starting with a backslash, become text terms.) -/
theorem claim6_unrecognized_dropped (now : ℚ) (xs ys : List String) (bad : String)
    (h : Mio.unrecognizedKeyed bad) :
    Mio.parseParts now (xs ++ bad :: ys) = Mio.parseParts now (xs ++ ys) := by
  unfold Mio.parseParts
  rw [Mio.foldlM_processToken_drop now bad h xs ys Mio.initFilters]

/-- Witness for claim C6's amended theorem at a concrete input. -/
theorem claim6_unrecognized_dropped_witness :
    Mio.unrecognizedKeyed "foo:bar" ∧
      Mio.parseParts 1000000 (["hi"] ++ "foo:bar" :: ["ext:txt"]) =
        Mio.parseParts 1000000 (["hi"] ++ ["ext:txt"]) :=
  ⟨by decide, claim6_unrecognized_dropped 1000000 ["hi"] ["ext:txt"] "foo:bar" (by decide)⟩

/-- Claim C1, counterexample: `parse_query` does NOT always return a
parsed query on malformed input.  A `regex:` token with an invalid
pattern propagates `re.error` from `re.compile` (there is no try/except
around the token loop), a `size:` token whose value has no digits makes
`float('')` raise ValueError, and a date token whose duration unit is the
literal `|` (accepted by the pattern `[d|w|m|y]`) raises KeyError in the
unit dictionary lookup. -/
theorem claim1_counterexample :
    (Mio.parse_query 1000000 "regex:[").isOk = false ∧
      (Mio.parse_query 1000000 "size:>abc").isOk = false ∧
      (Mio.parse_query 1000000 "modified:5|").isOk = false := by
  refine ⟨by decide, by decide, by decide⟩

/-- Claim C1 (amended): `parse_query` returns a parsed query — never an
error — provided every token is well formed in the sense of
`wellFormedToken`: every `regex:` value compiles, every `size:` value
parses as a number, and no date value matches the duration pattern with
the `|` unit.  In particular malformed date values that fail the pattern,
unrecognized keys, and arbitrary text terms never raise, and tokenization
itself is total (a shlex failure falls back to whitespace splitting). -/
theorem claim1_parse_total_amended (now : ℚ) (raw : String)
    (h : ∀ part ∈ Mio.tokenizeQuery raw, Mio.wellFormedToken part = true) :
    (Mio.parse_query now raw).isOk = true := by
  unfold Mio.parse_query Mio.parseParts
  have hf := Mio.foldlM_processToken_isOk now (Mio.tokenizeQuery raw) Mio.initFilters h
  cases hres : (Mio.tokenizeQuery raw).foldlM (Mio.processToken now) Mio.initFilters with
  | error e =>
    rw [hres, Mio.error_not_isOk] at hf
    exact absurd hf Bool.false_ne_true
  | ok f => rfl

/-- Witness for claim C1's amended theorem at a concrete input mixing a
valid regex, a malformed-but-ignored date value, a size filter, an
unrecognized key and plain text. -/
theorem claim1_parse_total_amended_witness :
    (∀ part ∈ Mio.tokenizeQuery "report regex:rep modified:soon size:>10m foo:bar",
        Mio.wellFormedToken part = true) ∧
      (Mio.parse_query 1000000 "report regex:rep modified:soon size:>10m foo:bar").isOk =
        true :=
  ⟨by decide,
    claim1_parse_total_amended 1000000 "report regex:rep modified:soon size:>10m foo:bar"
      (by decide)⟩

namespace Mio

/-! ### Lemmas about the search generator's seen-set discipline -/

theorem mem_insertSeen (seen : List String) (x p : String) (h : p ∈ seen) :
    p ∈ insertSeen seen x := by
  unfold insertSeen
  split
  · exact h
  · exact List.mem_cons_of_mem x h

theorem self_mem_insertSeen (seen : List String) (x : String) : x ∈ insertSeen seen x := by
  unfold insertSeen
  split
  · assumption
  · exact List.mem_cons_self x seen

theorem phase1_sublist (q : ParsedQuery) (it : String) (fz : Bool) (hist : History)
    (now : ℚ) (fsD : String → Bool) (fsC : String → Option String) :
    ∀ (cands : List FileRow) (seen : List String),
      ((phase1 q it fz hist now fsD fsC cands seen).1.map SearchResult.path).Sublist
        (cands.map FileRow.path)
  | [], _ => by simp [phase1]
  | r :: rest, seen => by
    simp only [phase1, List.map_cons]
    split
    · exact (phase1_sublist q it fz hist now fsD fsC rest seen).cons _
    · split
      · exact (phase1_sublist q it fz hist now fsD fsC rest seen).cons _
      · split
        · simp only [List.map_cons]
          exact (phase1_sublist q it fz hist now fsD fsC rest (insertSeen seen r.path)).cons₂ _
        · exact (phase1_sublist q it fz hist now fsD fsC rest seen).cons _

theorem phase1_seen_mono (q : ParsedQuery) (it : String) (fz : Bool) (hist : History)
    (now : ℚ) (fsD : String → Bool) (fsC : String → Option String) :
    ∀ (cands : List FileRow) (seen : List String) (p : String), p ∈ seen →
      p ∈ (phase1 q it fz hist now fsD fsC cands seen).2
  | [], _, _, hp => hp
  | r :: rest, seen, p, hp => by
    simp only [phase1]
    split
    · exact phase1_seen_mono q it fz hist now fsD fsC rest seen p hp
    · split
      · exact phase1_seen_mono q it fz hist now fsD fsC rest seen p hp
      · split
        · exact phase1_seen_mono q it fz hist now fsD fsC rest (insertSeen seen r.path) p
            (mem_insertSeen seen r.path p hp)
        · exact phase1_seen_mono q it fz hist now fsD fsC rest seen p hp

theorem phase1_out_in_seen (q : ParsedQuery) (it : String) (fz : Bool) (hist : History)
    (now : ℚ) (fsD : String → Bool) (fsC : String → Option String) :
    ∀ (cands : List FileRow) (seen : List String) (p : String),
      p ∈ (phase1 q it fz hist now fsD fsC cands seen).1.map SearchResult.path →
      p ∈ (phase1 q it fz hist now fsD fsC cands seen).2
  | [], _, p, hp => by simp [phase1] at hp
  | r :: rest, seen, p, hp => by
    simp only [phase1] at hp ⊢
    by_cases c1 : it = "folder" ∧ fsD r.path = false
    · rw [if_pos c1] at hp ⊢
      exact phase1_out_in_seen q it fz hist now fsD fsC rest seen p hp
    · rw [if_neg c1] at hp ⊢
      by_cases c2 : it = "file" ∧ fsD r.path = true
      · rw [if_pos c2] at hp ⊢
        exact phase1_out_in_seen q it fz hist now fsD fsC rest seen p hp
      · rw [if_neg c2] at hp ⊢
        by_cases c3 : (0.4 : ℚ) < calculate_score q fz hist now r.name r.path (fsD r.path)
            r.mtime (fsC r.path)
        · rw [if_pos c3] at hp ⊢
          dsimp only at hp ⊢
          simp only [List.map_cons, List.mem_cons] at hp
          rcases hp with he | hm
          · rw [he]
            exact phase1_seen_mono q it fz hist now fsD fsC rest (insertSeen seen r.path)
              r.path (self_mem_insertSeen seen r.path)
          · exact phase1_out_in_seen q it fz hist now fsD fsC rest (insertSeen seen r.path)
              p hm
        · rw [if_neg c3] at hp ⊢
          exact phase1_out_in_seen q it fz hist now fsD fsC rest seen p hp

theorem phase2Dir_spec (q : ParsedQuery) (it : String) (fz : Bool) (hist : History)
    (now : ℚ) (fsC : String → Option String) :
    ∀ (entries : List DirEntry) (seen : List String),
      ((phase2Dir q it fz hist now fsC entries seen).1.map SearchResult.path).Nodup ∧
        (∀ p ∈ (phase2Dir q it fz hist now fsC entries seen).1.map SearchResult.path,
          p ∉ seen) ∧
        (∀ p ∈ (phase2Dir q it fz hist now fsC entries seen).1.map SearchResult.path,
          p ∈ (phase2Dir q it fz hist now fsC entries seen).2) ∧
        (∀ p ∈ seen, p ∈ (phase2Dir q it fz hist now fsC entries seen).2)
  | [], seen => by simp [phase2Dir]
  | e :: rest, seen => by
    simp only [phase2Dir]
    split
    · exact phase2Dir_spec q it fz hist now fsC rest seen
    · next hns =>
      split
      · exact phase2Dir_spec q it fz hist now fsC rest seen
      · split
        · exact phase2Dir_spec q it fz hist now fsC rest seen
        · split
          · exact phase2Dir_spec q it fz hist now fsC rest seen
          · split
            · have ih := phase2Dir_spec q it fz hist now fsC rest (insertSeen seen e.path)
              have hnotseen : e.path ∉ seen := hns
              refine ⟨?_, ?_, ?_, ?_⟩
              · simp only [List.map_cons, List.nodup_cons]
                refine ⟨fun hmem => ?_, ih.1⟩
                exact ih.2.1 e.path hmem (self_mem_insertSeen seen e.path)
              · simp only [List.map_cons, List.mem_cons]
                rintro p (he | hm)
                · rw [he]
                  exact hnotseen
                · intro hp
                  exact ih.2.1 p hm (mem_insertSeen seen e.path p hp)
              · simp only [List.map_cons, List.mem_cons]
                rintro p (he | hm)
                · rw [he]
                  exact ih.2.2.2 e.path (self_mem_insertSeen seen e.path)
                · exact ih.2.2.1 p hm
              · intro p hp
                exact ih.2.2.2 p (mem_insertSeen seen e.path p hp)
            · exact phase2Dir_spec q it fz hist now fsC rest seen

theorem phase2_spec (q : ParsedQuery) (it : String) (fz : Bool) (hist : History)
    (now : ℚ) (fsC : String → Option String) :
    ∀ (dirs : List (List DirEntry)) (seen : List String),
      ((phase2 q it fz hist now fsC dirs seen).1.map SearchResult.path).Nodup ∧
        (∀ p ∈ (phase2 q it fz hist now fsC dirs seen).1.map SearchResult.path,
          p ∉ seen) ∧
        (∀ p ∈ (phase2 q it fz hist now fsC dirs seen).1.map SearchResult.path,
          p ∈ (phase2 q it fz hist now fsC dirs seen).2) ∧
        (∀ p ∈ seen, p ∈ (phase2 q it fz hist now fsC dirs seen).2)
  | [], seen => by simp [phase2]
  | d :: ds, seen => by
    have h1 := phase2Dir_spec q it fz hist now fsC d seen
    have h2 := phase2_spec q it fz hist now fsC ds
      (phase2Dir q it fz hist now fsC d seen).2
    simp only [phase2]
    refine ⟨?_, ?_, ?_, ?_⟩
    · rw [List.map_append, List.nodup_append]
      refine ⟨h1.1, h2.1, ?_⟩
      intro p hp hq
      exact h2.2.1 p hq (h1.2.2.1 p hp)
    · rw [List.map_append]
      intro p hp
      rcases List.mem_append.mp hp with hm | hm
      · exact h1.2.1 p hm
      · intro hs
        exact h2.2.1 p hm (h1.2.2.2 p hs)
    · rw [List.map_append]
      intro p hp
      rcases List.mem_append.mp hp with hm | hm
      · exact h2.2.2.2 p (h1.2.2.1 p hm)
      · exact h2.2.2.1 p hm
    · intro p hp
      exact h2.2.2.2 p (h1.2.2.2 p hp)

end Mio

/-- Claim C8: within a single run of the search generator no path is
emitted twice, provided the index rows have pairwise-distinct paths — the
invariant the `path TEXT PRIMARY KEY` column guarantees.  Phase 1 records
each emitted path in the seen set and Phase 2 skips any entry whose path
is already seen (or was emitted earlier in Phase 2). -/
theorem claim8_no_duplicate_paths (ready : Bool) (table : List Mio.FileRow)
    (dirs : List (List Mio.DirEntry)) (fsIsDir : String → Bool)
    (fsContent : String → Option String) (q : Mio.ParsedQuery) (item_type : String)
    (fuzzy : Bool) (hist : Mio.History) (now : ℚ)
    (h : (table.map Mio.FileRow.path).Nodup) :
    ((Mio.search_generator ready table dirs fsIsDir fsContent q item_type fuzzy hist
        now).map Mio.SearchResult.path).Nodup := by
  unfold Mio.search_generator
  split
  · simp
  · dsimp only
    have hcands : ((Mio.librarianQuery ready table q item_type).map Mio.FileRow.path).Nodup := by
      unfold Mio.librarianQuery
      split
      · exact ((List.filter_sublist table).map Mio.FileRow.path).nodup h
      · simp
    have hp1 := (Mio.phase1_sublist q item_type fuzzy hist now fsIsDir fsContent
      (Mio.librarianQuery ready table q item_type) []).nodup hcands
    split
    · rw [List.map_append, List.nodup_append]
      have h2 := Mio.phase2_spec q item_type fuzzy hist now fsContent dirs
        (Mio.phase1 q item_type fuzzy hist now fsIsDir fsContent
          (Mio.librarianQuery ready table q item_type) []).2
      refine ⟨hp1, h2.1, ?_⟩
      intro p hp hq
      exact h2.2.1 p hq
        (Mio.phase1_out_in_seen q item_type fuzzy hist now fsIsDir fsContent _ [] p hp)
    · exact hp1

/-- Witness for claim C8 at concrete inputs: a two-row index plus one
priority directory containing one of the same paths again. -/
theorem claim8_no_duplicate_paths_witness :
    (([⟨"/d/B", "report final.txt", ".txt", "doc", 5, 999999, "report final.txt"⟩,
        ⟨"/d/A", "Report", "", "other", 1, 0, "report"⟩] :
          List Mio.FileRow).map Mio.FileRow.path).Nodup ∧
      ((Mio.search_generator true
          [⟨"/d/B", "report final.txt", ".txt", "doc", 5, 999999, "report final.txt"⟩,
            ⟨"/d/A", "Report", "", "other", 1, 0, "report"⟩]
          [[⟨"Report", "/d/A", false, 0⟩, ⟨"report2", "/d/C", false, 0⟩]]
          (fun _ => false) (fun _ => none)
          ⟨["report"], none, none, none, 0, none, 0, none, false, "report", "report"⟩
          "file" true (fun _ => none) 1000000).map Mio.SearchResult.path).Nodup :=
  ⟨by decide,
    claim8_no_duplicate_paths true
      [⟨"/d/B", "report final.txt", ".txt", "doc", 5, 999999, "report final.txt"⟩,
        ⟨"/d/A", "Report", "", "other", 1, 0, "report"⟩]
      [[⟨"Report", "/d/A", false, 0⟩, ⟨"report2", "/d/C", false, 0⟩]]
      (fun _ => false) (fun _ => none)
      ⟨["report"], none, none, none, 0, none, 0, none, false, "report", "report"⟩
      "file" true (fun _ => none) 1000000 (by decide)⟩

namespace Mio

/-! ### Congruence lemmas: no part of the search reads the max bounds -/

theorem phase1_congr (qA qB : ParsedQuery) (it : String) (fz : Bool) (hist : History)
    (now : ℚ) (fsD : String → Bool) (fsC : String → Option String)
    (hsc : ∀ nm pth d mt ct, calculate_score qA fz hist now nm pth d mt ct =
      calculate_score qB fz hist now nm pth d mt ct) :
    ∀ (cands : List FileRow) (seen : List String),
      phase1 qA it fz hist now fsD fsC cands seen =
        phase1 qB it fz hist now fsD fsC cands seen
  | [], _ => rfl
  | r :: rest, seen => by
    simp only [phase1]
    rw [hsc r.name r.path (fsD r.path) r.mtime (fsC r.path),
      phase1_congr qA qB it fz hist now fsD fsC hsc rest seen,
      phase1_congr qA qB it fz hist now fsD fsC hsc rest (insertSeen seen r.path)]

theorem phase2Dir_congr (qA qB : ParsedQuery) (it : String) (fz : Bool) (hist : History)
    (now : ℚ) (fsC : String → Option String)
    (hsc : ∀ nm pth d mt ct, calculate_score qA fz hist now nm pth d mt ct =
      calculate_score qB fz hist now nm pth d mt ct)
    (hmd : qA.min_date = qB.min_date) (hext : qA.ext = qB.ext) :
    ∀ (entries : List DirEntry) (seen : List String),
      phase2Dir qA it fz hist now fsC entries seen =
        phase2Dir qB it fz hist now fsC entries seen
  | [], _ => rfl
  | e :: rest, seen => by
    simp only [phase2Dir, hmd, hext,
      hsc e.name e.path e.is_dir e.mtime (fsC e.path),
      phase2Dir_congr qA qB it fz hist now fsC hsc hmd hext rest seen,
      phase2Dir_congr qA qB it fz hist now fsC hsc hmd hext rest (insertSeen seen e.path)]

theorem phase2_congr (qA qB : ParsedQuery) (it : String) (fz : Bool) (hist : History)
    (now : ℚ) (fsC : String → Option String)
    (hsc : ∀ nm pth d mt ct, calculate_score qA fz hist now nm pth d mt ct =
      calculate_score qB fz hist now nm pth d mt ct)
    (hmd : qA.min_date = qB.min_date) (hext : qA.ext = qB.ext) :
    ∀ (dirs : List (List DirEntry)) (seen : List String),
      phase2 qA it fz hist now fsC dirs seen = phase2 qB it fz hist now fsC dirs seen
  | [], _ => rfl
  | d :: ds, seen => by
    simp only [phase2, phase2Dir_congr qA qB it fz hist now fsC hsc hmd hext d,
      phase2_congr qA qB it fz hist now fsC hsc hmd hext ds]

end Mio

/-- Claim C9: the `max_size` and `max_date` bounds parsed from `size:<`
and `<`-prefixed date tokens are never applied: neither the Phase 1 index
query nor the Phase 2 disk scan reads them, so two searches whose parsed
queries differ only in those two fields produce identical result
streams.  The two queries below share every field except `max_size` and
`max_date`. -/
theorem claim9_max_bounds_unused (ready : Bool) (table : List Mio.FileRow)
    (dirs : List (List Mio.DirEntry)) (fsIsDir : String → Bool)
    (fsContent : String → Option String) (tx : List String) (ex rg ctg : Option String)
    (ms md : ℚ) (cs : Bool) (tg tc : String) (mxs mxd mxs' mxd' : Option ℚ)
    (item_type : String) (fuzzy : Bool) (hist : Mio.History) (now : ℚ) :
    Mio.librarianQuery ready table ⟨tx, ex, rg, ctg, ms, mxs, md, mxd, cs, tg, tc⟩
        item_type =
      Mio.librarianQuery ready table ⟨tx, ex, rg, ctg, ms, mxs', md, mxd', cs, tg, tc⟩
        item_type ∧
    Mio.search_generator ready table dirs fsIsDir fsContent
        ⟨tx, ex, rg, ctg, ms, mxs, md, mxd, cs, tg, tc⟩ item_type fuzzy hist now =
      Mio.search_generator ready table dirs fsIsDir fsContent
        ⟨tx, ex, rg, ctg, ms, mxs', md, mxd', cs, tg, tc⟩ item_type fuzzy hist now := by
  have hsc : ∀ nm pth d mt ct,
      Mio.calculate_score ⟨tx, ex, rg, ctg, ms, mxs, md, mxd, cs, tg, tc⟩ fuzzy hist now
          nm pth d mt ct =
        Mio.calculate_score ⟨tx, ex, rg, ctg, ms, mxs', md, mxd', cs, tg, tc⟩ fuzzy hist
          now nm pth d mt ct :=
    fun _ _ _ _ _ => rfl
  have hlq : Mio.librarianQuery ready table
      ⟨tx, ex, rg, ctg, ms, mxs, md, mxd, cs, tg, tc⟩ item_type =
      Mio.librarianQuery ready table ⟨tx, ex, rg, ctg, ms, mxs', md, mxd', cs, tg, tc⟩
        item_type := rfl
  refine ⟨hlq, ?_⟩
  unfold Mio.search_generator
  simp only [hlq,
    Mio.phase1_congr ⟨tx, ex, rg, ctg, ms, mxs, md, mxd, cs, tg, tc⟩
      ⟨tx, ex, rg, ctg, ms, mxs', md, mxd', cs, tg, tc⟩ item_type fuzzy hist now fsIsDir
      fsContent hsc,
    Mio.phase2_congr ⟨tx, ex, rg, ctg, ms, mxs, md, mxd, cs, tg, tc⟩
      ⟨tx, ex, rg, ctg, ms, mxs', md, mxd', cs, tg, tc⟩ item_type fuzzy hist now
      fsContent hsc rfl rfl]

